import Mathlib

/-!
Verification of GraphIQ's core algorithms against its natural-language
specification.  The TypeScript/GLSL sources are shallowly embedded:

* integer/number fields of shape records use `ℚ` (JS numbers used as exact
  quantities in the claims) and `ℤ` for the depth key `zIndex`;
* the GLSL float math (`smin`, the rounded-rectangle SDF) is modelled over
  `ℝ`, since it uses `sqrt`/`pow`/transcendental functions;
* the JS `Map` backing `ShapeManager` is modelled as an association list in
  insertion order, with `Map.set` replace-or-append semantics;
* fallible operations return a `Bool` alongside the new state, as the source
  does.
-/

/-! ## Data model (src/src/utils/ShapeManager.ts, `Shape`) -/

/-- 2-D point, `{ x: number; y: number }`. -/
structure Vec2q where
  x : ℚ
  y : ℚ
deriving DecidableEq, Repr

/-- Extent, `{ width: number; height: number }`. -/
structure Sizeq where
  width : ℚ
  height : ℚ
deriving DecidableEq, Repr

/-- Color `{ r, g, b, a }`. -/
structure RGBA where
  r : ℚ
  g : ℚ
  b : ℚ
  a : ℚ
deriving DecidableEq, Repr

/-- `Shape` record from `ShapeManager.ts`. -/
structure Shape where
  id : String
  position : Vec2q
  size : Sizeq
  radius : ℚ
  roundness : ℚ
  visible : Bool
  draggable : Bool
  zIndex : ℤ
  color : RGBA
deriving DecidableEq, Repr

/-- `Partial<Shape>`: every field optional (the argument of `addShape` /
`updateShape`). -/
structure ShapeData where
  id : Option String := none
  position : Option Vec2q := none
  size : Option Sizeq := none
  radius : Option ℚ := none
  roundness : Option ℚ := none
  visible : Option Bool := none
  draggable : Option Bool := none
  zIndex : Option ℤ := none
  color : Option RGBA := none
deriving DecidableEq, Repr

/-! ## smin (src/src/shaders/fragment-multielement.glsl and
src/unnamed/part_002, lines 155-158):

    float smin(float a, float b, float k) {
      float h = max(k - abs(a - b), 0.0) / k;
      return min(a, b) - h * h * k * (1.0 / 4.0);
    }

Modelled over `ℝ`; `x / 0 = 0` by Lean convention, which realises the
`k = 0` hard-minimum degeneration the spec describes. -/

/-- Smooth minimum used for blob merging. -/
noncomputable def smin (a b k : ℝ) : ℝ :=
  let h := max (k - |a - b|) 0 / k
  min a b - h * h * k * (1 / 4)

/-! ## Camera (src/src/utils/Camera.ts), over the gl-matrix `mat4`/`vec4`
routines it calls.  Matrix entries are stored column-major exactly as in
gl-matrix (`m0 = out[0]`, ..., `m15 = out[15]`). -/

/-- Column-major 4×4 matrix, gl-matrix layout. -/
structure Mat4 where
  m0 : ℚ
  m1 : ℚ
  m2 : ℚ
  m3 : ℚ
  m4 : ℚ
  m5 : ℚ
  m6 : ℚ
  m7 : ℚ
  m8 : ℚ
  m9 : ℚ
  m10 : ℚ
  m11 : ℚ
  m12 : ℚ
  m13 : ℚ
  m14 : ℚ
  m15 : ℚ
deriving DecidableEq, Repr

/-- 4-component vector as used by `vec4`. -/
structure Vec4q where
  x : ℚ
  y : ℚ
  z : ℚ
  w : ℚ
deriving DecidableEq, Repr

/-- `mat4.create()`: identity. -/
def mat4create : Mat4 :=
  ⟨1, 0, 0, 0, 0, 1, 0, 0, 0, 0, 1, 0, 0, 0, 0, 1⟩

/-- `mat4.ortho(out, left, right, bottom, top, near, far)` (gl-matrix). -/
def mat4ortho (left right bottom top near far : ℚ) : Mat4 :=
  let lr := 1 / (left - right)
  let bt := 1 / (bottom - top)
  let nf := 1 / (near - far)
  ⟨-2 * lr, 0, 0, 0,
   0, -2 * bt, 0, 0,
   0, 0, 2 * nf, 0,
   (left + right) * lr, (top + bottom) * bt, (far + near) * nf, 1⟩

/-- `mat4.translate(out, a, [x, y, z])` (gl-matrix), for `out ≠ a` it keeps
the upper 3×4 block of `a` and recomputes the translation column. -/
def mat4translate (a : Mat4) (x y z : ℚ) : Mat4 :=
  { a with
    m12 := a.m0 * x + a.m4 * y + a.m8 * z + a.m12
    m13 := a.m1 * x + a.m5 * y + a.m9 * z + a.m13
    m14 := a.m2 * x + a.m6 * y + a.m10 * z + a.m14
    m15 := a.m3 * x + a.m7 * y + a.m11 * z + a.m15 }

/-- `mat4.multiply(out, a, b)` (gl-matrix). -/
def mat4multiply (a b : Mat4) : Mat4 :=
  ⟨b.m0 * a.m0 + b.m1 * a.m4 + b.m2 * a.m8 + b.m3 * a.m12,
   b.m0 * a.m1 + b.m1 * a.m5 + b.m2 * a.m9 + b.m3 * a.m13,
   b.m0 * a.m2 + b.m1 * a.m6 + b.m2 * a.m10 + b.m3 * a.m14,
   b.m0 * a.m3 + b.m1 * a.m7 + b.m2 * a.m11 + b.m3 * a.m15,
   b.m4 * a.m0 + b.m5 * a.m4 + b.m6 * a.m8 + b.m7 * a.m12,
   b.m4 * a.m1 + b.m5 * a.m5 + b.m6 * a.m9 + b.m7 * a.m13,
   b.m4 * a.m2 + b.m5 * a.m6 + b.m6 * a.m10 + b.m7 * a.m14,
   b.m4 * a.m3 + b.m5 * a.m7 + b.m6 * a.m11 + b.m7 * a.m15,
   b.m8 * a.m0 + b.m9 * a.m4 + b.m10 * a.m8 + b.m11 * a.m12,
   b.m8 * a.m1 + b.m9 * a.m5 + b.m10 * a.m9 + b.m11 * a.m13,
   b.m8 * a.m2 + b.m9 * a.m6 + b.m10 * a.m10 + b.m11 * a.m14,
   b.m8 * a.m3 + b.m9 * a.m7 + b.m10 * a.m11 + b.m11 * a.m15,
   b.m12 * a.m0 + b.m13 * a.m4 + b.m14 * a.m8 + b.m15 * a.m12,
   b.m12 * a.m1 + b.m13 * a.m5 + b.m14 * a.m9 + b.m15 * a.m13,
   b.m12 * a.m2 + b.m13 * a.m6 + b.m14 * a.m10 + b.m15 * a.m14,
   b.m12 * a.m3 + b.m13 * a.m7 + b.m14 * a.m11 + b.m15 * a.m15⟩

/-- `vec4.transformMat4(out, a, m)` (gl-matrix). -/
def vec4transformMat4 (a : Vec4q) (m : Mat4) : Vec4q :=
  ⟨m.m0 * a.x + m.m4 * a.y + m.m8 * a.z + m.m12 * a.w,
   m.m1 * a.x + m.m5 * a.y + m.m9 * a.z + m.m13 * a.w,
   m.m2 * a.x + m.m6 * a.y + m.m10 * a.z + m.m14 * a.w,
   m.m3 * a.x + m.m7 * a.y + m.m11 * a.z + m.m15 * a.w⟩

/-- `mat4.invert(out, a)` (gl-matrix).  gl-matrix returns `null` when the
determinant vanishes; here the Lean convention `1 / 0 = 0` makes that case
produce a zero matrix instead, and the camera round-trip theorem only
concerns invertible view-projections. -/
def mat4invert (a : Mat4) : Mat4 :=
  let b00 := a.m0 * a.m5 - a.m1 * a.m4
  let b01 := a.m0 * a.m6 - a.m2 * a.m4
  let b02 := a.m0 * a.m7 - a.m3 * a.m4
  let b03 := a.m1 * a.m6 - a.m2 * a.m5
  let b04 := a.m1 * a.m7 - a.m3 * a.m5
  let b05 := a.m2 * a.m7 - a.m3 * a.m6
  let b06 := a.m8 * a.m13 - a.m9 * a.m12
  let b07 := a.m8 * a.m14 - a.m10 * a.m12
  let b08 := a.m8 * a.m15 - a.m11 * a.m12
  let b09 := a.m9 * a.m14 - a.m10 * a.m13
  let b10 := a.m9 * a.m15 - a.m11 * a.m13
  let b11 := a.m10 * a.m15 - a.m11 * a.m14
  let det := b00 * b11 - b01 * b10 + b02 * b09 + b03 * b08 - b04 * b07 + b05 * b06
  let d := 1 / det
  ⟨(a.m5 * b11 - a.m6 * b10 + a.m7 * b09) * d,
   (a.m2 * b10 - a.m1 * b11 - a.m3 * b09) * d,
   (a.m13 * b05 - a.m14 * b04 + a.m15 * b03) * d,
   (a.m10 * b04 - a.m9 * b05 - a.m11 * b03) * d,
   (a.m6 * b08 - a.m4 * b11 - a.m7 * b07) * d,
   (a.m0 * b11 - a.m2 * b08 + a.m3 * b07) * d,
   (a.m14 * b02 - a.m12 * b05 - a.m15 * b01) * d,
   (a.m8 * b05 - a.m10 * b02 + a.m11 * b01) * d,
   (a.m4 * b10 - a.m5 * b08 + a.m7 * b06) * d,
   (a.m1 * b08 - a.m0 * b10 - a.m3 * b06) * d,
   (a.m12 * b04 - a.m13 * b02 + a.m15 * b00) * d,
   (a.m9 * b02 - a.m8 * b04 - a.m11 * b00) * d,
   (a.m5 * b07 - a.m4 * b09 - a.m6 * b06) * d,
   (a.m0 * b09 - a.m1 * b07 + a.m2 * b06) * d,
   (a.m13 * b01 - a.m12 * b03 - a.m14 * b00) * d,
   (a.m8 * b03 - a.m9 * b01 + a.m10 * b00) * d⟩

/-- Camera state (`Camera.ts`). -/
structure Camera where
  viewportWidth : ℚ
  viewportHeight : ℚ
  position : Vec2q
  zoom : ℚ
deriving DecidableEq, Repr

/-- `_recalc`: orthographic projection with half-extents
`viewportSize / (2 * zoom)`. -/
def Camera.projection (c : Camera) : Mat4 :=
  let hw := c.viewportWidth / (2 * c.zoom)
  let hh := c.viewportHeight / (2 * c.zoom)
  mat4ortho (-hw) hw (-hh) hh (-1000) 1000

/-- `_recalc`: view is a pure translation by `-position`. -/
def Camera.view (c : Camera) : Mat4 :=
  mat4translate mat4create (-c.position.x) (-c.position.y) 0

/-- `_recalc`: `viewProjection = projection * view`. -/
def Camera.viewProjection (c : Camera) : Mat4 :=
  mat4multiply c.projection c.view

/-- `worldToScreen(wx, wy)`: transform by the view-projection,
perspective-divide, map NDC to pixels with the screen-Y flip. -/
def Camera.worldToScreen (c : Camera) (wx wy : ℚ) : Vec2q :=
  let out := vec4transformMat4 ⟨wx, wy, 0, 1⟩ c.viewProjection
  let ndcX := out.x / out.w
  let ndcY := out.y / out.w
  ⟨(ndcX + 1) * (1 / 2) * c.viewportWidth,
   (1 - ndcY) * (1 / 2) * c.viewportHeight⟩

/-- `screenToWorld(sx, sy)`: pixels to NDC (Y flipped back), transform by the
inverted view-projection, perspective-divide. -/
def Camera.screenToWorld (c : Camera) (sx sy : ℚ) : Vec2q :=
  let ndcX := (sx / c.viewportWidth) * 2 - 1
  let ndcY := 1 - (sy / c.viewportHeight) * 2
  let invVP := mat4invert c.viewProjection
  let out := vec4transformMat4 ⟨ndcX, ndcY, 0, 1⟩ invVP
  ⟨out.x / out.w, out.y / out.w⟩

/-! ## Shape store (src/src/utils/ShapeManager.ts).  The JS `Map` is an
association list in insertion order; `Map.set` replaces the value in place
when the key exists and appends otherwise, `Map.delete` removes the entry
and reports whether it existed. -/

/-- `ShapeManagerState` plus the manager's `nextId` counter. -/
structure SMState where
  shapes : List (String × Shape)
  selectedShapeId : Option String
  draggingShapeId : Option String
  dragStartPos : Vec2q
  dragStartShapePos : Vec2q
  nextId : ℕ
deriving DecidableEq, Repr

/-- The initial manager state. -/
def SMState.empty : SMState :=
  ⟨[], none, none, ⟨0, 0⟩, ⟨0, 0⟩, 1⟩

/-- `Map.set`: replace in place if the key exists, append otherwise. -/
def mapSet (m : List (String × Shape)) (k : String) (v : Shape) :
    List (String × Shape) :=
  if m.any (fun e => e.1 = k) then
    m.map (fun e => if e.1 = k then (k, v) else e)
  else m ++ [(k, v)]

/-- JS `x || default` for a numeric field: `0` is falsy, so an explicit `0`
also falls back to the default. -/
def orFalsy (v : Option ℚ) (d : ℚ) : ℚ :=
  match v with
  | none => d
  | some x => if x = 0 then d else x

/-- JS `x || default` for a string field: the empty string is falsy. -/
def orFalsyStr (v : Option String) (d : String) : String :=
  match v with
  | none => d
  | some s => if s = "" then d else s

/-- The `Shape` record built by `addShape` from a `Partial<Shape>`:
`radius`/`roundness` use `||` defaulting (0 falls back), `visible`/`draggable`
use `!== false`, `zIndex` uses `!== undefined` (an explicit 0 is kept). -/
def buildShape (p : ShapeData) (id : String) : Shape :=
  { id := id
    position := p.position.getD ⟨0, 0⟩
    size := p.size.getD ⟨200, 200⟩
    radius := orFalsy p.radius 80
    roundness := orFalsy p.roundness 5
    visible := decide (p.visible ≠ some false)
    draggable := decide (p.draggable ≠ some false)
    zIndex := p.zIndex.getD 0
    color := p.color.getD ⟨255, 255, 255, 1⟩ }

/-- `addShape(shapeData)`: `const id = shapeData.id || shape_${this.nextId++}`
(the counter advances only when the id was generated), then `Map.set`. -/
def addShape (st : SMState) (p : ShapeData) : String × SMState :=
  let generated := match p.id with
    | none => true
    | some s => s = ""
  let id := orFalsyStr p.id ("shape_" ++ toString st.nextId)
  let nId := if generated then st.nextId + 1 else st.nextId
  (id, { st with shapes := mapSet st.shapes id (buildShape p id), nextId := nId })

/-- `removeShape(id)`: `Map.delete` plus clearing a matching selection or
drag; returns whether the id existed. -/
def removeShape (st : SMState) (id : String) : SMState × Bool :=
  let existed := st.shapes.any (fun e => e.1 = id)
  ({ st with
      shapes := st.shapes.filter (fun e => ¬ (e.1 = id))
      selectedShapeId :=
        if st.selectedShapeId = some id then none else st.selectedShapeId
      draggingShapeId :=
        if st.draggingShapeId = some id then none else st.draggingShapeId },
   existed)

/-- `getShape(id)`: `Map.get`. -/
def getShape (st : SMState) (id : String) : Option Shape :=
  (st.shapes.find? (fun e => e.1 = id)).map (fun e => e.2)

/-- `getAllShapes()`: the map's values in insertion order. -/
def getAllShapes (st : SMState) : List Shape :=
  st.shapes.map (fun e => e.2)

/-- `Object.assign(shape, updates)`: overwrite exactly the fields present in
the partial update. -/
def assignShapeData (s : Shape) (u : ShapeData) : Shape :=
  { id := u.id.getD s.id
    position := u.position.getD s.position
    size := u.size.getD s.size
    radius := u.radius.getD s.radius
    roundness := u.roundness.getD s.roundness
    visible := u.visible.getD s.visible
    draggable := u.draggable.getD s.draggable
    zIndex := u.zIndex.getD s.zIndex
    color := u.color.getD s.color }

/-- `updateShape(id, updates)`: look the shape up, return `false` untouched
when absent, otherwise assign the updates in place. -/
def updateShape (st : SMState) (id : String) (u : ShapeData) : SMState × Bool :=
  match st.shapes.find? (fun e => e.1 = id) with
  | none => (st, false)
  | some _ =>
    ({ st with
        shapes := st.shapes.map (fun e => if e.1 = id then (e.1, assignShapeData e.2 u) else e) },
     true)

/-- `setShapePosition(id, position)` = `updateShape(id, { position })`. -/
def setShapePosition (st : SMState) (id : String) (p : Vec2q) : SMState × Bool :=
  updateShape st id { position := some p }

/-! ## C8: failure atomicity of `updateShape`/`removeShape` on absent ids. -/

/-! ## C10: falsy-default handling in `addShape`. -/

/-! ## C9: at most one shape with the reserved id `"hover_shape"`.  The store
is keyed by id (`Map.set` replaces rather than duplicates), so key
uniqueness is an invariant of every operation; the hover-enter path
(App.tsx `onPointerMove`) removes any prior bubble, then adds a shape whose
data comes from `createHoverShape`, which always sets `id: 'hover_shape'`. -/

/-- Key uniqueness of the backing map. -/
def uniqueIds (st : SMState) : Prop :=
  (st.shapes.map (fun e => e.1)).Nodup

/-- Number of stored entries carrying the reserved hover id. -/
def hoverCount (st : SMState) : ℕ :=
  (st.shapes.filter (fun e => e.1 = "hover_shape")).length

/-- The hover-enter path of `onPointerMove`: remove the previous bubble (if
any), then add the freshly built hover-shape data.  `createHoverShape`
(App.tsx) always returns a partial whose `id` is `'hover_shape'`; the data is
passed as a parameter here since only its id matters to the uniqueness
claim. -/
def hoverEnter (st : SMState) (currentChildId : Option String)
    (hoverShapeData : ShapeData) : SMState × String :=
  let st1 := match currentChildId with
    | some c => (removeShape st c).1
    | none => st
  let r := addShape st1 hoverShapeData
  (r.2, r.1)

/-! ## C6: adaptive quality controller (App.tsx `adaptQualitySettings` and
the frame-time bookkeeping in the render loop). -/

/-- `stateRef.current.adaptiveQuality` shape. -/
structure AdaptiveQuality where
  enableSelectiveAlpha : Bool
  tintAlphaThreshold : ℚ
  effectComplexityThreshold : ℚ
  ditherStrength : ℚ
  ditherType : ℤ
deriving DecidableEq, Repr

/-- The defaults the state is initialised with (App.tsx). -/
def defaultAdaptiveQuality : AdaptiveQuality :=
  { enableSelectiveAlpha := true
    tintAlphaThreshold := 95 / 100
    effectComplexityThreshold := 4 / 10
    ditherStrength := 3 / 10
    ditherType := 2 }

/-- `adaptQualitySettings(frameTime, qualityControls)`:
`fps = 1000 / frameTime`; below `0.7 * 60` favour speed (threshold 0.98,
Bayer dithering 1, strength 0.2); above `0.9 * 60` favour quality
(threshold 0.85, blue-noise dithering 2, strength 0.4); otherwise leave
everything unchanged. -/
def adaptQualitySettings (frameTime : ℚ) (q : AdaptiveQuality) :
    AdaptiveQuality :=
  let fps := 1000 / frameTime
  let targetFPS : ℚ := 60
  if fps < targetFPS * (7 / 10) then
    { enableSelectiveAlpha := true
      tintAlphaThreshold := 98 / 100
      effectComplexityThreshold := 15 / 100
      ditherStrength := 2 / 10
      ditherType := 1 }
  else if fps > targetFPS * (9 / 10) then
    { enableSelectiveAlpha := true
      tintAlphaThreshold := 85 / 100
      effectComplexityThreshold := 5 / 10
      ditherStrength := 4 / 10
      ditherType := 2 }
  else q

/-- The render-loop frame-time bookkeeping: push this frame's time; once the
history exceeds 60 entries, shift the oldest out and report the average of
the remaining 60. -/
def pushFrameTime (hist : List ℚ) (ft : ℚ) : List ℚ × Option ℚ :=
  let h := hist ++ [ft]
  if 60 < h.length then
    let h2 := h.drop 1
    (h2, some (h2.sum / 60))
  else (h, none)

/-- One render tick's quality adaptation: adapt only when the buffer is
full and the performance mode is `"auto"`. -/
def renderTickQuality (mode : String) (hist : List ℚ) (ft : ℚ)
    (q : AdaptiveQuality) : List ℚ × AdaptiveQuality :=
  let r := pushFrameTime hist ft
  match r.2 with
  | some avg => if mode = "auto" then (r.1, adaptQualitySettings avg q) else (r.1, q)
  | none => (r.1, q)

/-! ## C3: hit-testing (src/src/utils/ShapeManager.ts
`getShapeAtPosition`/`getSortedShapes`).  Shapes are sorted ascending by
`zIndex` (stable, like JS `Array.prototype.sort` with the numeric
comparator) and scanned from the end so the topmost shape wins. -/

/-- Ascending `zIndex` order used by `getSortedShapes`. -/
def zLE (a b : Shape) : Prop := a.zIndex ≤ b.zIndex

instance : DecidableRel zLE := fun a b =>
  inferInstanceAs (Decidable (a.zIndex ≤ b.zIndex))

/-- `getSortedShapes()`: the map's values sorted ascending by `zIndex`. -/
def getSortedShapes (st : SMState) : List Shape :=
  List.insertionSort zLE (st.shapes.map (fun e => e.2))

/-- `canvasInfo` as passed to `getShapeAtPosition`. -/
structure CanvasInfo where
  width : ℚ
  height : ℚ
  dpr : ℚ
deriving DecidableEq, Repr

/-- `canvasInfo.dpr || 1` (0 is falsy). -/
def effDpr (ci : CanvasInfo) : ℚ :=
  if ci.dpr = 0 then 1 else ci.dpr

/-- The per-shape axis-aligned box test of `getShapeAtPosition`, on
physical-pixel mouse coordinates: the shape's top-left corner is
`(centerX - position.x - width/2, centerY + position.y - height/2)`. -/
def hitBoxContains (ci : CanvasInfo) (s : Shape) (mx my : ℚ) : Bool :=
  let dpr := effDpr ci
  let centerX := ci.width * dpr / 2
  let centerY := ci.height * dpr / 2
  let shapeX := centerX - s.position.x - s.size.width / 2
  let shapeY := centerY + s.position.y - s.size.height / 2
  decide (shapeX ≤ mx ∧ mx ≤ shapeX + s.size.width ∧
    shapeY ≤ my ∧ my ≤ shapeY + s.size.height)

/-- `getShapeAtPosition(mousePos, canvasInfo)`: convert the mouse position to
physical pixels and return the id of the first visible shape containing it,
scanning the zIndex-sorted list from the end (topmost first). -/
def getShapeAtPosition (st : SMState) (mouse : Vec2q) (ci : CanvasInfo) :
    Option String :=
  let mx := mouse.x * effDpr ci
  let my := mouse.y * effDpr ci
  ((getSortedShapes st).reverse.find?
    (fun s => s.visible && hitBoxContains ci s mx my)).map (fun s => s.id)

/-! ## C5: group dragging (App.tsx `onPointerDown` snapshots every shape
sharing the clicked shape's zIndex with its position; `onPointerMove` sets
each snapshotted shape's position to its snapshot plus the common
world-space delta via `setShapePosition`). -/

/-- Every stored entry's value carries its key as `id` (true of every state
the manager builds, since `addShape` keys the map by the shape's id). -/
def keysConsistent (st : SMState) : Prop :=
  ∀ e ∈ st.shapes, e.2.id = e.1

/-- `onPointerDown`: `draggingGroupShapes` snapshot — id and position of
every shape whose `zIndex` equals the clicked shape's. -/
def snapshotDraggingGroup (st : SMState) (targetZIndex : ℤ) :
    List (String × Vec2q) :=
  (getAllShapes st).filterMap
    (fun s => if s.zIndex = targetZIndex then some (s.id, s.position) else none)

/-- `onPointerMove` while dragging: each snapshotted shape is moved to its
original position plus the common delta. -/
def applyDragGroup (st : SMState) (group : List (String × Vec2q))
    (delta : Vec2q) : SMState :=
  group.foldl
    (fun acc e => (setShapePosition acc e.1 ⟨e.2.x + delta.x, e.2.y + delta.y⟩).1)
    st

/-- Concrete three-shape store for the C5 witness: `"a"`, `"b"` at zIndex 1,
`"c"` at zIndex 2. -/
def dragWitnessStore : SMState :=
  ⟨[("a", ⟨"a", ⟨1, 2⟩, ⟨10, 10⟩, 80, 5, true, true, 1, ⟨255, 255, 255, 1⟩⟩),
    ("b", ⟨"b", ⟨5, 5⟩, ⟨10, 10⟩, 80, 5, true, true, 1, ⟨255, 255, 255, 1⟩⟩),
    ("c", ⟨"c", ⟨9, 9⟩, ⟨10, 10⟩, 80, 5, true, true, 2, ⟨255, 255, 255, 1⟩⟩)],
   none, none, ⟨0, 0⟩, ⟨0, 0⟩, 1⟩

/-! ## C7: rounded-rectangle SDF (src/unnamed/part_002, `roundedRectSDF` /
`superellipseCornerSDF`, also in the main fragment shaders).  The GLSL float
math (`length`, `pow`) is modelled over `ℝ`. -/

/-- GLSL `length(vec2)`. -/
noncomputable def glslLength (x y : ℝ) : ℝ :=
  Real.sqrt (x ^ 2 + y ^ 2)

/-- GLSL `sign`. -/
noncomputable def glslSign (x : ℝ) : ℝ :=
  if 0 < x then 1 else if x < 0 then -1 else 0

/-- `superellipseCornerSDF(p, r, n)`:
`p = abs(p); pow(pow(p.x, n) + pow(p.y, n), 1/n) - r`. -/
noncomputable def superellipseCornerSDF (px py r n : ℝ) : ℝ :=
  (|px| ^ n + |py| ^ n) ^ (1 / n) - r

/-- `roundedRectSDF(p, center, width, height, cornerRadius, n)`: classify the
point into the corner region (`d.x > -cr && d.y > -cr`) and use the
superellipse corner distance there, otherwise the plain box distance
`min(max(d.x, d.y), 0) + length(max(d, 0))`. -/
noncomputable def roundedRectSDF (px py cx cy width height cornerRadius n : ℝ) :
    ℝ :=
  let qx := px - cx
  let qy := py - cy
  let cr := cornerRadius
  let dx := |qx| - width * (1 / 2)
  let dy := |qy| - height * (1 / 2)
  if dx > -cr ∧ dy > -cr then
    let ccx := glslSign qx * (width * (1 / 2) - cr)
    let ccy := glslSign qy * (height * (1 / 2) - cr)
    superellipseCornerSDF (qx - ccx) (qy - ccy) cr n
  else
    min (max dx dy) 0 + glslLength (max dx 0) (max dy 0)

/-! ## C1: batching by `(zIndex, tint)` with a per-batch cap. -/

/-- The compound grouping key `(zIndex, tint)`. -/
def batchKey (s : Shape) : ℤ × RGBA := (s.zIndex, s.color)

/-- Modelled from the spec: grouping of a shape list by its `(zIndex, tint)`
compound key, in order of first appearance — part of
`ShapeManager.getBatchedShapeData`, which App.tsx calls but whose
implementation is not among the provided sources (spec §4.2 "Batching"). -/
def groupByKey : List Shape → List ((ℤ × RGBA) × List Shape)
  | [] => []
  | x :: xs =>
    (batchKey x, x :: xs.filter (fun y => batchKey y = batchKey x)) ::
      groupByKey (xs.filter (fun y => ¬ (batchKey y = batchKey x)))
termination_by l => l.length
decreasing_by
  simp_wf
  exact Nat.lt_succ_of_le (List.length_filter_le _ _)

/-- Modelled from the spec: splitting one key group into runs of at most
`C` shapes ("split any group exceeding maxPerBatch into multiple same-key
batches"). -/
def chunksOf (C : ℕ) (l : List Shape) : List (List Shape) :=
  if l = [] then []
  else if C = 0 then [l]
  else l.take C :: chunksOf C (l.drop C)
termination_by l.length
decreasing_by
  simp_wf
  exact ⟨List.length_pos.mpr (by assumption), Nat.pos_of_ne_zero (by assumption)⟩

/-- One derived batch: a same-key run of shapes plus its key. -/
structure Batch where
  shapes : List Shape
  zIndex : ℤ
  tint : RGBA
deriving DecidableEq, Repr

/-- Ascending-`zIndex` order on batches. -/
def batchLE (a b : Batch) : Prop := a.zIndex ≤ b.zIndex

instance : DecidableRel batchLE := fun a b =>
  inferInstanceAs (Decidable (a.zIndex ≤ b.zIndex))

instance : IsTotal Batch batchLE := ⟨fun a b => le_total a.zIndex b.zIndex⟩

instance : IsTrans Batch batchLE := ⟨fun _ _ _ h1 h2 => le_trans h1 h2⟩

/-- Modelled from the spec: `ShapeManager.getBatchedShapeData(maxPerBatch)`
(called from App.tsx, implementation not among the provided sources) —
group the visible shapes by `(zIndex, tint)`, split every group into runs
of at most `maxPerBatch`, and sort the batch list ascending by `zIndex`
(spec §4.2 "Batching"). -/
def getBatchedShapeData (shapes : List Shape) (maxPerBatch : ℕ) : List Batch :=
  List.insertionSort batchLE
    (((groupByKey (shapes.filter (fun s => s.visible))).map
      (fun g => (chunksOf maxPerBatch g.2).map
        (fun c => Batch.mk c g.1.1 g.1.2))).flatten)

/-! ## Theorems -/

/-- C2: for all real `a`, `b` and every `k ≥ 0`, the smooth minimum
`smin(a,b,k) = min(a,b) − h²·k/4` with `h = max(k − |a−b|, 0)/k` satisfies
`smin(a,b,k) ≤ min(a,b)`, and at `k = 0` it degenerates exactly to the hard
minimum: `smin(a,b,0) = min(a,b)`. -/
theorem smin_le_min_and_smin_zero (a b k : ℝ) (hk : 0 ≤ k) :
    smin a b k ≤ min a b ∧ smin a b 0 = min a b := by
  constructor
  · unfold smin
    have hh : 0 ≤ max (k - |a - b|) 0 / k :=
      div_nonneg (le_max_right _ _) hk
    have : 0 ≤ max (k - |a - b|) 0 / k * (max (k - |a - b|) 0 / k) * k * (1 / 4) := by
      have := mul_nonneg (mul_nonneg (mul_nonneg hh hh) hk) (by norm_num : (0:ℝ) ≤ 1 / 4)
      simpa using this
    simp only
    linarith
  · unfold smin
    simp

/-- Witness for C2 at `a = 1`, `b = 2`, `k = 3`. -/
theorem smin_le_min_and_smin_zero_witness :
    smin 1 2 3 ≤ min 1 2 ∧ smin 1 2 0 = min 1 2 :=
  smin_le_min_and_smin_zero 1 2 3 (by norm_num)

/-- The camera's view-projection in closed form: a scaling by `2·zoom/viewport`
on x/y plus the translation that centres the camera. -/
lemma camera_viewProjection_eq (c : Camera) (hz : c.zoom ≠ 0)
    (hvw : c.viewportWidth ≠ 0) (hvh : c.viewportHeight ≠ 0) :
    c.viewProjection =
      ⟨2 * c.zoom / c.viewportWidth, 0, 0, 0,
       0, 2 * c.zoom / c.viewportHeight, 0, 0,
       0, 0, -(1 / 1000), 0,
       -(2 * c.zoom * c.position.x) / c.viewportWidth,
       -(2 * c.zoom * c.position.y) / c.viewportHeight, 0, 1⟩ := by
  simp only [Camera.viewProjection, Camera.projection, Camera.view, mat4ortho,
    mat4translate, mat4create, mat4multiply]
  rw [Mat4.mk.injEq]
  norm_num
  repeat' apply And.intro
  all_goals
    field_simp
    try ring
    try (field_simp; ring)

/-- gl-matrix `mat4.invert` on the camera's view-projection, in closed form. -/
lemma camera_invert_viewProjection_eq (c : Camera) (hz : c.zoom ≠ 0)
    (hvw : c.viewportWidth ≠ 0) (hvh : c.viewportHeight ≠ 0) :
    mat4invert c.viewProjection =
      ⟨c.viewportWidth / (2 * c.zoom), 0, 0, 0,
       0, c.viewportHeight / (2 * c.zoom), 0, 0,
       0, 0, -1000, 0,
       c.position.x, c.position.y, 0, 1⟩ := by
  rw [camera_viewProjection_eq c hz hvw hvh]
  simp only [mat4invert]
  rw [Mat4.mk.injEq]
  norm_num
  repeat' apply And.intro
  all_goals
    field_simp
    try ring
    try (field_simp; ring)

/-- C4: for every camera state with positive viewport extents and nonzero
zoom, and every world point `(px, py)`, `screenToWorld ∘ worldToScreen` is
the identity (exactly over `ℚ`, hence within any floating-point epsilon). -/
theorem screenToWorld_worldToScreen (c : Camera) (px py : ℚ)
    (hw : 0 < c.viewportWidth) (hh : 0 < c.viewportHeight)
    (hz : c.zoom ≠ 0) :
    (c.screenToWorld (c.worldToScreen px py).x (c.worldToScreen px py).y).x = px ∧
    (c.screenToWorld (c.worldToScreen px py).x (c.worldToScreen px py).y).y = py := by
  have hvw : c.viewportWidth ≠ 0 := ne_of_gt hw
  have hvh : c.viewportHeight ≠ 0 := ne_of_gt hh
  simp only [Camera.screenToWorld, Camera.worldToScreen]
  rw [camera_invert_viewProjection_eq c hz hvw hvh,
    camera_viewProjection_eq c hz hvw hvh]
  simp only [vec4transformMat4]
  norm_num
  repeat' apply And.intro
  all_goals
    field_simp
    try ring
    try (field_simp; ring)

/-- Witness for C4 at a concrete camera and point. -/
theorem screenToWorld_worldToScreen_witness :
    ((⟨800, 600, ⟨3, 4⟩, 2⟩ : Camera).screenToWorld
      ((⟨800, 600, ⟨3, 4⟩, 2⟩ : Camera).worldToScreen 10 20).x
      ((⟨800, 600, ⟨3, 4⟩, 2⟩ : Camera).worldToScreen 10 20).y).x = 10 ∧
    ((⟨800, 600, ⟨3, 4⟩, 2⟩ : Camera).screenToWorld
      ((⟨800, 600, ⟨3, 4⟩, 2⟩ : Camera).worldToScreen 10 20).x
      ((⟨800, 600, ⟨3, 4⟩, 2⟩ : Camera).worldToScreen 10 20).y).y = 20 :=
  screenToWorld_worldToScreen ⟨800, 600, ⟨3, 4⟩, 2⟩ 10 20
    (by norm_num) (by norm_num) (by norm_num)

/-- C8: when `id` is not in the store, `updateShape` returns `false` and the
whole state is untouched, and `removeShape` returns `false` and the set of
stored shapes is unchanged (totality of the embedding reflects that neither
operation throws). -/
theorem update_remove_missing_id (st : SMState) (id : String) (u : ShapeData)
    (h : getShape st id = none) :
    updateShape st id u = (st, false) ∧
    (removeShape st id).2 = false ∧
    (removeShape st id).1.shapes = st.shapes := by
  have hfind : st.shapes.find? (fun e => e.1 = id) = none := by
    unfold getShape at h
    cases hf : st.shapes.find? (fun e => e.1 = id) with
    | none => rfl
    | some e => rw [hf] at h; simp at h
  have hall : ∀ e ∈ st.shapes, ¬ (e.1 = id) := by
    intro e he
    have := List.find?_eq_none.mp hfind e he
    simpa using this
  refine ⟨?_, ?_, ?_⟩
  · unfold updateShape
    rw [hfind]
  · unfold removeShape
    simp only
    rw [List.any_eq_false]
    intro e he
    simpa using hall e he
  · unfold removeShape
    simp only
    rw [List.filter_eq_self]
    intro e he
    simpa using hall e he

/-- Witness for C8 on a one-shape store and an absent id. -/
theorem update_remove_missing_id_witness :
    getShape ((addShape SMState.empty { id := some "a" }).2) "b" = none ∧
    (updateShape ((addShape SMState.empty { id := some "a" }).2) "b"
        { radius := some 1 } =
      ((addShape SMState.empty { id := some "a" }).2, false) ∧
    (removeShape ((addShape SMState.empty { id := some "a" }).2) "b").2 = false ∧
    (removeShape ((addShape SMState.empty { id := some "a" }).2) "b").1.shapes =
      ((addShape SMState.empty { id := some "a" }).2).shapes) :=
  ⟨by decide, update_remove_missing_id _ "b" _ (by decide)⟩

/-- C10: an explicit `radius: 0` or `roundness: 0` passed to `addShape` is
replaced by the defaults 80 and 5 (JS `||` treats 0 as absent), while an
explicit `zIndex: 0` is kept, because that field is defaulted with
`!== undefined`. -/
theorem addShape_zero_falsy_defaults (st : SMState) (p : ShapeData)
    (hr : p.radius = some 0) (ho : p.roundness = some 0)
    (hz : p.zIndex = some 0) :
    ∃ s : Shape,
      getShape (addShape st p).2 (addShape st p).1 = some s ∧
      s.radius = 80 ∧ s.roundness = 5 ∧ s.zIndex = 0 := by
  refine ⟨buildShape p (addShape st p).1, ?_, ?_, ?_, ?_⟩
  · unfold addShape getShape
    simp only
    have key : ∀ (m : List (String × Shape)) (k : String) (v : Shape),
        (mapSet m k v).find? (fun e => e.1 = k) = some (k, v) := by
      intro m k v
      unfold mapSet
      by_cases hmem : m.any (fun e => e.1 = k) = true
      · rw [if_pos hmem]
        induction m with
        | nil => simp at hmem
        | cons e rest ih =>
          by_cases he : e.1 = k
          · simp [List.find?, he]
          · simp only [List.map_cons, if_neg he]
            rw [List.find?_cons_of_neg _ (by simpa using he)]
            apply ih
            simp only [List.any_cons] at hmem
            simpa [he] using hmem
      · rw [if_neg hmem]
        have hmem' : ∀ e ∈ m, ¬ (e.1 = k) := by
          intro e he hc
          exact hmem (List.any_eq_true.mpr ⟨e, he, by simpa using hc⟩)
        clear hmem
        induction m with
        | nil => simp [List.find?]
        | cons e rest ih =>
          rw [List.cons_append, List.find?_cons_of_neg]
          · exact ih (fun e' he' => hmem' e' (List.mem_cons_of_mem _ he'))
          · simpa using hmem' e (List.mem_cons_self _ _)
    rw [key]
    simp
  · simp [buildShape, hr, orFalsy]
  · simp [buildShape, ho, orFalsy]
  · simp [buildShape, hz]

/-- Witness for C10: concrete partial with radius 0, roundness 0, zIndex 0. -/
theorem addShape_zero_falsy_defaults_witness :
    ∃ s : Shape,
      getShape (addShape SMState.empty
          { id := some "w", radius := some 0, roundness := some 0,
            zIndex := some 0 }).2
        (addShape SMState.empty
          { id := some "w", radius := some 0, roundness := some 0,
            zIndex := some 0 }).1 = some s ∧
      s.radius = 80 ∧ s.roundness = 5 ∧ s.zIndex = 0 :=
  addShape_zero_falsy_defaults SMState.empty _ rfl rfl rfl

/-- Replacing values of a key-value list pointwise (keeping every key)
leaves the key list unchanged. -/
lemma map_keys_of_fst_eq (m : List (String × Shape))
    (f : String × Shape → String × Shape) (hf : ∀ e, (f e).1 = e.1) :
    ((m.map f).map (fun e => e.1)) = m.map (fun e => e.1) := by
  induction m with
  | nil => rfl
  | cons e rest ih => simp [ih, hf]

lemma mapSet_keys_nodup (m : List (String × Shape)) (k : String) (v : Shape)
    (h : (m.map (fun e => e.1)).Nodup) :
    ((mapSet m k v).map (fun e => e.1)).Nodup := by
  unfold mapSet
  by_cases hmem : m.any (fun e => e.1 = k) = true
  · rw [if_pos hmem]
    rw [map_keys_of_fst_eq]
    · exact h
    · intro e
      by_cases he : e.1 = k <;> simp [he]
  · rw [if_neg hmem]
    rw [List.map_append]
    rw [List.nodup_append]
    refine ⟨h, by simp, ?_⟩
    intro a ha
    simp only [List.mem_map] at ha
    obtain ⟨e, he, rfl⟩ := ha
    simp only [List.map_cons, List.map_nil, List.mem_singleton]
    intro hc
    exact hmem (List.any_eq_true.mpr ⟨e, he, by simpa using hc⟩)

lemma addShape_uniqueIds (st : SMState) (p : ShapeData)
    (h : uniqueIds st) : uniqueIds (addShape st p).2 := by
  unfold addShape uniqueIds
  exact mapSet_keys_nodup _ _ _ h

lemma removeShape_uniqueIds (st : SMState) (id : String)
    (h : uniqueIds st) : uniqueIds (removeShape st id).1 := by
  unfold removeShape uniqueIds
  unfold uniqueIds at h
  have hsub : (st.shapes.filter (fun e => ¬ (e.1 = id))).Sublist st.shapes :=
    List.filter_sublist st.shapes
  exact (hsub.map (fun e => e.1)).nodup h

lemma updateShape_uniqueIds (st : SMState) (id : String) (u : ShapeData)
    (h : uniqueIds st) : uniqueIds (updateShape st id u).1 := by
  unfold updateShape
  cases hf : st.shapes.find? (fun e => e.1 = id) with
  | none => exact h
  | some e0 =>
    unfold uniqueIds
    unfold uniqueIds at h
    dsimp only
    rw [map_keys_of_fst_eq]
    · exact h
    · intro e
      by_cases he : e.1 = id <;> simp [he]

lemma nodup_keys_filter_le_one (l : List (String × Shape))
    (h : (l.map (fun e => e.1)).Nodup) :
    (l.filter (fun e => e.1 = "hover_shape")).length ≤ 1 := by
  induction l with
  | nil => simp
  | cons e rest ih =>
    simp only [List.map_cons, List.nodup_cons] at h
    by_cases he : e.1 = "hover_shape"
    · rw [List.filter_cons_of_pos (by simpa using he)]
      have : rest.filter (fun e => e.1 = "hover_shape") = [] := by
        rw [List.filter_eq_nil]
        intro a ha hc
        exact h.1 (by
          rw [← he] at hc
          simp only [decide_eq_true_eq] at hc
          exact (List.mem_map.mpr ⟨a, ha, hc⟩))
      rw [this]
      simp
    · rw [List.filter_cons_of_neg (by simpa using he)]
      exact ih h.2

lemma uniqueIds_hoverCount_le_one (st : SMState) (h : uniqueIds st) :
    hoverCount st ≤ 1 := by
  unfold hoverCount
  unfold uniqueIds at h
  exact nodup_keys_filter_le_one st.shapes h

/-- C9: key uniqueness (hence "at most one shape with the reserved hover id")
is preserved by `addShape`, `removeShape` and `updateShape`, and after any
run of the hover-enter path the store holds at most one `"hover_shape"`
entry. -/
theorem hover_id_unique (st : SMState) (p u : ShapeData) (i : String)
    (child : Option String) (hp : ShapeData)
    (h : uniqueIds st) :
    uniqueIds (addShape st p).2 ∧
    uniqueIds (removeShape st i).1 ∧
    uniqueIds (updateShape st i u).1 ∧
    uniqueIds (hoverEnter st child hp).1 ∧
    hoverCount (hoverEnter st child hp).1 ≤ 1 := by
  have hEnter : uniqueIds (hoverEnter st child hp).1 := by
    unfold hoverEnter
    cases child with
    | none => exact addShape_uniqueIds _ _ h
    | some c => exact addShape_uniqueIds _ _ (removeShape_uniqueIds _ _ h)
  exact ⟨addShape_uniqueIds st p h, removeShape_uniqueIds st i h,
    updateShape_uniqueIds st i u h, hEnter,
    uniqueIds_hoverCount_le_one _ hEnter⟩

/-- Witness for C9: a store that already holds a hover bubble, running the
hover-enter path again. -/
theorem hover_id_unique_witness :
    uniqueIds (addShape
        (addShape SMState.empty { id := some "hover_shape" }).2
        { id := some "a" }).2 ∧
    hoverCount (hoverEnter
        (addShape (addShape SMState.empty { id := some "hover_shape" }).2
          { id := some "a" }).2
        (some "hover_shape") { id := some "hover_shape" }).1 ≤ 1 := by
  have h0 : uniqueIds (addShape SMState.empty { id := some "hover_shape" }).2 := by
    unfold uniqueIds
    decide
  have h1 := hover_id_unique
    (addShape (addShape SMState.empty { id := some "hover_shape" }).2
      { id := some "a" }).2
    { id := some "b" } { radius := some 1 } "x" (some "hover_shape")
    { id := some "hover_shape" }
    (by unfold uniqueIds; decide)
  have h2 := hover_id_unique
    (addShape SMState.empty { id := some "hover_shape" }).2
    { id := some "a" } { radius := some 1 } "x" (some "hover_shape")
    { id := some "hover_shape" } h0
  exact ⟨h2.1, h1.2.2.2.2⟩

/-- C6: with a full 60-sample buffer, an `"auto"`-mode tick derives the
average of the last 60 frame times and feeds `fps = 1000/avg` into the
controller; below `0.7·60` fps it raises the alpha-test threshold (0.98 over
the default 0.95), switches to Bayer dithering (type 1) and lowers the
dither strength (0.2 under the default 0.3); above `0.9·60` fps it lowers
the threshold (0.85), selects blue noise (type 2) and raises the strength
(0.4); in between every adaptive field is left unchanged. -/
theorem adaptive_quality_controller (hist : List ℚ) (ft f : ℚ)
    (q : AdaptiveQuality) (hlen : hist.length = 60) :
    ((renderTickQuality "auto" hist ft q).2 =
        adaptQualitySettings (((hist ++ [ft]).drop 1).sum / 60) q ∧
      ((hist ++ [ft]).drop 1).length = 60) ∧
    (1000 / f < 60 * (7 / 10) →
      (adaptQualitySettings f q).tintAlphaThreshold = 98 / 100 ∧
      (adaptQualitySettings f q).tintAlphaThreshold >
        defaultAdaptiveQuality.tintAlphaThreshold ∧
      (adaptQualitySettings f q).ditherType = 1 ∧
      (adaptQualitySettings f q).ditherStrength = 2 / 10 ∧
      (adaptQualitySettings f q).ditherStrength <
        defaultAdaptiveQuality.ditherStrength) ∧
    (1000 / f > 60 * (9 / 10) →
      (adaptQualitySettings f q).tintAlphaThreshold = 85 / 100 ∧
      (adaptQualitySettings f q).tintAlphaThreshold <
        defaultAdaptiveQuality.tintAlphaThreshold ∧
      (adaptQualitySettings f q).ditherType = 2 ∧
      (adaptQualitySettings f q).ditherStrength = 4 / 10 ∧
      (adaptQualitySettings f q).ditherStrength >
        defaultAdaptiveQuality.ditherStrength) ∧
    (60 * (7 / 10) ≤ 1000 / f → 1000 / f ≤ 60 * (9 / 10) →
      adaptQualitySettings f q = q) := by
  refine ⟨⟨?_, ?_⟩, ?_, ?_, ?_⟩
  · unfold renderTickQuality pushFrameTime
    have hgt : 60 < (hist ++ [ft]).length := by
      rw [List.length_append, hlen]
      simp
    rw [if_pos hgt]
    simp
  · rw [List.length_drop, List.length_append, hlen]
    simp
  · intro hlow
    unfold adaptQualitySettings
    rw [if_pos hlow]
    refine ⟨rfl, ?_, rfl, rfl, ?_⟩ <;> norm_num [defaultAdaptiveQuality]
  · intro hhigh
    have hnotlow : ¬ (1000 / f < 60 * (7 / 10)) := by linarith
    unfold adaptQualitySettings
    rw [if_neg hnotlow, if_pos hhigh]
    refine ⟨rfl, ?_, rfl, rfl, ?_⟩ <;> norm_num [defaultAdaptiveQuality]
  · intro h1 h2
    have hnotlow : ¬ (1000 / f < 60 * (7 / 10)) := by linarith
    have hnothigh : ¬ (1000 / f > 60 * (9 / 10)) := by linarith
    unfold adaptQualitySettings
    rw [if_neg hnotlow, if_neg hnothigh]

/-- Witness for C6 on a concrete full buffer and fps values on both sides of
the hysteresis band. -/
theorem adaptive_quality_controller_witness :
    ((renderTickQuality "auto" (List.replicate 60 (10 : ℚ)) 10
          defaultAdaptiveQuality).2 =
        adaptQualitySettings
          (((List.replicate 60 (10 : ℚ) ++ [10]).drop 1).sum / 60)
          defaultAdaptiveQuality ∧
      ((List.replicate 60 (10 : ℚ) ++ [10]).drop 1).length = 60) ∧
    (1000 / (100 : ℚ) < 60 * (7 / 10) →
      (adaptQualitySettings 100 defaultAdaptiveQuality).tintAlphaThreshold = 98 / 100 ∧
      (adaptQualitySettings 100 defaultAdaptiveQuality).tintAlphaThreshold >
        defaultAdaptiveQuality.tintAlphaThreshold ∧
      (adaptQualitySettings 100 defaultAdaptiveQuality).ditherType = 1 ∧
      (adaptQualitySettings 100 defaultAdaptiveQuality).ditherStrength = 2 / 10 ∧
      (adaptQualitySettings 100 defaultAdaptiveQuality).ditherStrength <
        defaultAdaptiveQuality.ditherStrength) ∧
    (1000 / (100 : ℚ) > 60 * (9 / 10) →
      (adaptQualitySettings 100 defaultAdaptiveQuality).tintAlphaThreshold = 85 / 100 ∧
      (adaptQualitySettings 100 defaultAdaptiveQuality).tintAlphaThreshold <
        defaultAdaptiveQuality.tintAlphaThreshold ∧
      (adaptQualitySettings 100 defaultAdaptiveQuality).ditherType = 2 ∧
      (adaptQualitySettings 100 defaultAdaptiveQuality).ditherStrength = 4 / 10 ∧
      (adaptQualitySettings 100 defaultAdaptiveQuality).ditherStrength >
        defaultAdaptiveQuality.ditherStrength) ∧
    (60 * (7 / 10) ≤ 1000 / (100 : ℚ) → 1000 / (100 : ℚ) ≤ 60 * (9 / 10) →
      adaptQualitySettings 100 defaultAdaptiveQuality = defaultAdaptiveQuality) :=
  adaptive_quality_controller (List.replicate 60 (10 : ℚ)) 10 100
    defaultAdaptiveQuality (by simp)

/-- C3: in a store holding two visible shapes with different `zIndex` whose
boxes both contain the query point, `getShapeAtPosition` returns the id of
the shape with the higher `zIndex`. -/
theorem hit_test_topmost_wins (s1 s2 : Shape) (ci : CanvasInfo) (mouse : Vec2q)
    (h1v : s1.visible = true) (h2v : s2.visible = true)
    (hz : s1.zIndex ≠ s2.zIndex)
    (hb1 : hitBoxContains ci s1 (mouse.x * effDpr ci) (mouse.y * effDpr ci) = true)
    (hb2 : hitBoxContains ci s2 (mouse.x * effDpr ci) (mouse.y * effDpr ci) = true) :
    getShapeAtPosition
        ⟨[(s1.id, s1), (s2.id, s2)], none, none, ⟨0, 0⟩, ⟨0, 0⟩, 1⟩ mouse ci =
      some (if s1.zIndex < s2.zIndex then s2.id else s1.id) := by
  unfold getShapeAtPosition getSortedShapes
  by_cases hle : zLE s1 s2
  · have hlt : s1.zIndex < s2.zIndex := lt_of_le_of_ne hle hz
    simp [List.insertionSort, List.orderedInsert, hle, h1v, h2v, hb1, hb2,
      List.find?, hlt]
  · have hlt : ¬ (s1.zIndex < s2.zIndex) := fun hc => hle (le_of_lt hc)
    simp [List.insertionSort, List.orderedInsert, hle, h1v, h2v, hb1, hb2,
      List.find?, hlt]

/-- Witness for C3 on two concrete overlapping shapes at z 0 and 1. -/
theorem hit_test_topmost_wins_witness :
    getShapeAtPosition
        ⟨[(("a" : String),
            ⟨"a", ⟨0, 0⟩, ⟨100, 100⟩, 80, 5, true, true, 0, ⟨255, 255, 255, 1⟩⟩),
          (("b" : String),
            ⟨"b", ⟨10, 10⟩, ⟨100, 100⟩, 80, 5, true, true, 1, ⟨255, 255, 255, 1⟩⟩)],
          none, none, ⟨0, 0⟩, ⟨0, 0⟩, 1⟩
        ⟨200, 200⟩ ⟨400, 400, 1⟩ =
      some (if (0 : ℤ) < 1 then "b" else "a") :=
  hit_test_topmost_wins
    ⟨"a", ⟨0, 0⟩, ⟨100, 100⟩, 80, 5, true, true, 0, ⟨255, 255, 255, 1⟩⟩
    ⟨"b", ⟨10, 10⟩, ⟨100, 100⟩, 80, 5, true, true, 1, ⟨255, 255, 255, 1⟩⟩
    ⟨400, 400, 1⟩ ⟨200, 200⟩ rfl rfl (by decide)
    (by norm_num [hitBoxContains, effDpr])
    (by norm_num [hitBoxContains, effDpr])

lemma applyDragGroup_cons (st : SMState) (g : String × Vec2q)
    (rest : List (String × Vec2q)) (delta : Vec2q) :
    applyDragGroup st (g :: rest) delta =
      applyDragGroup
        ((setShapePosition st g.1 ⟨g.2.x + delta.x, g.2.y + delta.y⟩).1)
        rest delta := rfl

lemma find?_map_keyPreserving (l : List (String × Shape))
    (f : String × Shape → String × Shape) (hf : ∀ e, (f e).1 = e.1)
    (i : String) :
    (l.map f).find? (fun e => e.1 = i) =
      (l.find? (fun e => e.1 = i)).map f := by
  induction l with
  | nil => rfl
  | cons e rest ih =>
    by_cases he : e.1 = i
    · rw [List.map_cons, List.find?_cons_of_pos _ (by simp [hf, he]),
        List.find?_cons_of_pos _ (by simp [he])]
      rfl
    · rw [List.map_cons, List.find?_cons_of_neg _ (by simp [hf, he]),
        List.find?_cons_of_neg _ (by simp [he])]
      exact ih

lemma getShape_setShapePosition_ne (st : SMState) (i j : String) (p : Vec2q)
    (hij : j ≠ i) :
    getShape (setShapePosition st j p).1 i = getShape st i := by
  unfold setShapePosition updateShape
  cases hfj : st.shapes.find? (fun e => e.1 = j) with
  | none => rfl
  | some e0 =>
    unfold getShape
    dsimp only
    rw [find?_map_keyPreserving _ _
      (fun e => by by_cases h : e.1 = j <;> simp [h]) i]
    cases hfi : st.shapes.find? (fun e => e.1 = i) with
    | none => rfl
    | some e1 =>
      have h1 : e1.1 = i := by simpa using List.find?_some hfi
      have : (if e1.1 = j then (e1.1, assignShapeData e1.2 { position := some p })
          else e1) = e1 := by
        rw [if_neg]
        rw [h1]
        exact fun hc => hij hc.symm
      simp [this]

lemma getShape_setShapePosition_self (st : SMState) (i : String) (p : Vec2q)
    (s : Shape) (hs : getShape st i = some s) :
    getShape (setShapePosition st i p).1 i = some { s with position := p } := by
  unfold getShape at hs
  cases hf : st.shapes.find? (fun e => e.1 = i) with
  | none => rw [hf] at hs; simp at hs
  | some e =>
    rw [hf] at hs
    have hs2 : e.2 = s := by simpa using hs
    have he : e.1 = i := by simpa using List.find?_some hf
    unfold setShapePosition updateShape
    rw [hf]
    unfold getShape
    dsimp only
    rw [find?_map_keyPreserving _ _
      (fun e => by by_cases h : e.1 = i <;> simp [h]) i]
    rw [hf]
    simp [he, assignShapeData, ← hs2]

lemma applyDragGroup_not_mem (group : List (String × Vec2q)) (st : SMState)
    (delta : Vec2q) (i : String) (h : ∀ e ∈ group, e.1 ≠ i) :
    getShape (applyDragGroup st group delta) i = getShape st i := by
  induction group generalizing st with
  | nil => rfl
  | cons g rest ih =>
    rw [applyDragGroup_cons]
    rw [ih _ (fun e he => h e (List.mem_cons_of_mem _ he))]
    exact getShape_setShapePosition_ne st i g.1 _ (h g (List.mem_cons_self _ _))

lemma applyDragGroup_mem (group : List (String × Vec2q)) (st : SMState)
    (delta : Vec2q) (i : String) (p : Vec2q) (s : Shape)
    (hnd : (group.map (fun e => e.1)).Nodup)
    (hmem : (i, p) ∈ group) (hs : getShape st i = some s) :
    getShape (applyDragGroup st group delta) i =
      some { s with position := ⟨p.x + delta.x, p.y + delta.y⟩ } := by
  induction group generalizing st with
  | nil => cases hmem
  | cons g rest ih =>
    simp only [List.map_cons, List.nodup_cons] at hnd
    rcases List.mem_cons.mp hmem with heq | hrest
    · rw [← heq] at hnd ⊢
      rw [applyDragGroup_cons]
      rw [applyDragGroup_not_mem rest _ delta i
        (fun e he hc => hnd.1 (hc ▸ List.mem_map.mpr ⟨e, he, rfl⟩))]
      exact getShape_setShapePosition_self st i _ s hs
    · have hgi : g.1 ≠ i := by
        intro hc
        exact hnd.1 (hc ▸ List.mem_map.mpr ⟨(i, p), hrest, rfl⟩)
      rw [applyDragGroup_cons]
      refine ih _ hnd.2 hrest ?_
      rw [getShape_setShapePosition_ne st i g.1 _ hgi]
      exact hs

lemma eq_of_nodup_keys (l : List (String × Shape))
    (h : (l.map (fun e => e.1)).Nodup) (e1 e2 : String × Shape)
    (h1 : e1 ∈ l) (h2 : e2 ∈ l) (hk : e1.1 = e2.1) : e1 = e2 := by
  induction l with
  | nil => cases h1
  | cons a rest ih =>
    simp only [List.map_cons, List.nodup_cons] at h
    rcases List.mem_cons.mp h1 with rfl | m1
    · rcases List.mem_cons.mp h2 with rfl | m2
      · rfl
      · exact absurd (hk ▸ List.mem_map.mpr ⟨e2, m2, rfl⟩) h.1
    · rcases List.mem_cons.mp h2 with rfl | m2
      · exact absurd (hk ▸ List.mem_map.mpr ⟨e1, m1, rfl⟩ :
          e2.1 ∈ rest.map (fun e => e.1)) h.1
      · exact ih h.2 m1 m2

lemma snapshot_keys_nodup_aux (Z : ℤ) (l : List (String × Shape))
    (hnd : (l.map (fun e => e.1)).Nodup) (hcon : ∀ e ∈ l, e.2.id = e.1) :
    (((l.map (fun e => e.2)).filterMap
      (fun s => if s.zIndex = Z then some (s.id, s.position) else none)).map
        (fun e => e.1)).Nodup := by
  induction l with
  | nil => simp
  | cons e rest ih =>
    simp only [List.map_cons, List.nodup_cons] at hnd
    have hcon2 : ∀ e2 ∈ rest, e2.2.id = e2.1 :=
      fun e2 he2 => hcon e2 (List.mem_cons_of_mem _ he2)
    by_cases hz : e.2.zIndex = Z
    · have hstep : List.filterMap
          (fun s => if s.zIndex = Z then some (s.id, s.position) else none)
          (e.2 :: List.map (fun e2 => e2.2) rest) =
          (e.2.id, e.2.position) :: List.filterMap
            (fun s => if s.zIndex = Z then some (s.id, s.position) else none)
            (List.map (fun e2 => e2.2) rest) := by
        simp [hz]
      rw [List.map_cons, hstep, List.map_cons, List.nodup_cons]
      refine ⟨?_, ih hnd.2 hcon2⟩
      intro hmem
      rcases List.mem_map.mp hmem with ⟨q, hq, hq1⟩
      rcases List.mem_filterMap.mp hq with ⟨s, hsmem, hsome⟩
      rcases List.mem_map.mp hsmem with ⟨e2, he2, rfl⟩
      by_cases hz2 : e2.2.zIndex = Z
      · rw [if_pos hz2] at hsome
        have hq2 : q = (e2.2.id, e2.2.position) := by
          injection hsome with h1
          exact h1.symm
        apply hnd.1
        refine List.mem_map.mpr ⟨e2, he2, ?_⟩
        calc e2.1 = e2.2.id := (hcon2 e2 he2).symm
          _ = q.1 := by rw [hq2]
          _ = e.2.id := hq1
          _ = e.1 := hcon e (List.mem_cons_self _ _)
      · rw [if_neg hz2] at hsome
        cases hsome
    · have hstep : List.filterMap
          (fun s => if s.zIndex = Z then some (s.id, s.position) else none)
          (e.2 :: List.map (fun e2 => e2.2) rest) =
          List.filterMap
            (fun s => if s.zIndex = Z then some (s.id, s.position) else none)
            (List.map (fun e2 => e2.2) rest) := by
        simp [hz]
      rw [List.map_cons, hstep]
      exact ih hnd.2 hcon2

lemma snapshot_keys_nodup (st : SMState) (Z : ℤ) (hu : uniqueIds st)
    (hc : keysConsistent st) :
    ((snapshotDraggingGroup st Z).map (fun e => e.1)).Nodup := by
  unfold snapshotDraggingGroup getAllShapes
  exact snapshot_keys_nodup_aux Z st.shapes hu hc

/-- C5: with unique, consistent ids, dragging from a shape of zIndex `Z` by a
world-space delta moves every currently-visible shape with zIndex `Z` by that
identical delta (only its `position` changes, all other fields are kept by
the record update), and leaves every shape with a different zIndex entirely
unchanged. -/
theorem drag_group_moves_same_z (st : SMState) (Z : ℤ) (delta : Vec2q)
    (hu : uniqueIds st) (hc : keysConsistent st) (i : String) (s : Shape)
    (hs : getShape st i = some s) :
    (s.visible = true → s.zIndex = Z →
      getShape (applyDragGroup st (snapshotDraggingGroup st Z) delta) i =
        some { s with position :=
          ⟨s.position.x + delta.x, s.position.y + delta.y⟩ }) ∧
    (s.zIndex ≠ Z →
      getShape (applyDragGroup st (snapshotDraggingGroup st Z) delta) i =
        some s) := by
  have hfe : ∃ e, st.shapes.find? (fun e2 => e2.1 = i) = some e ∧ e.2 = s := by
    unfold getShape at hs
    cases hf : st.shapes.find? (fun e2 => e2.1 = i) with
    | none => rw [hf] at hs; simp at hs
    | some e =>
      rw [hf] at hs
      exact ⟨e, rfl, by simpa using hs⟩
  obtain ⟨e, hf, he2⟩ := hfe
  have hemem : e ∈ st.shapes := List.mem_of_find?_eq_some hf
  have he1 : e.1 = i := by simpa using List.find?_some hf
  have hsid : s.id = i := by rw [← he2, hc e hemem]; exact he1
  constructor
  · intro _ hzZ
    apply applyDragGroup_mem _ _ _ _ s.position s
      (snapshot_keys_nodup st Z hu hc) ?_ hs
    unfold snapshotDraggingGroup getAllShapes
    apply List.mem_filterMap.mpr
    refine ⟨s, List.mem_map.mpr ⟨e, hemem, he2⟩, ?_⟩
    rw [if_pos hzZ, hsid]
  · intro hzne
    rw [applyDragGroup_not_mem _ _ _ _ ?_]
    · exact hs
    · intro g hg hgi
      unfold snapshotDraggingGroup getAllShapes at hg
      rcases List.mem_filterMap.mp hg with ⟨s2, hs2mem, hsome⟩
      rcases List.mem_map.mp hs2mem with ⟨e2, he2mem, rfl⟩
      by_cases hz2 : e2.2.zIndex = Z
      · rw [if_pos hz2] at hsome
        have hg2 : g = (e2.2.id, e2.2.position) := by
          injection hsome with h1
          exact h1.symm
        have he21 : e2.1 = i := by
          rw [← hc e2 he2mem, ← hgi, hg2]
        have : e2 = e := eq_of_nodup_keys st.shapes hu e2 e he2mem hemem
          (by rw [he21, he1])
        rw [this] at hz2
        rw [he2] at hz2
        exact hzne hz2
      · rw [if_neg hz2] at hsome
        cases hsome

/-- Witness for C5: dragging the zIndex-1 group by `(3, 4)` moves shape
`"a"` by exactly that delta and leaves shape `"c"` unchanged. -/
theorem drag_group_moves_same_z_witness :
    (getShape (applyDragGroup dragWitnessStore
        (snapshotDraggingGroup dragWitnessStore 1) ⟨3, 4⟩) "a" =
      some { (⟨"a", ⟨1, 2⟩, ⟨10, 10⟩, 80, 5, true, true, 1,
          ⟨255, 255, 255, 1⟩⟩ : Shape) with position :=
        ⟨(⟨1, 2⟩ : Vec2q).x + (⟨3, 4⟩ : Vec2q).x,
         (⟨1, 2⟩ : Vec2q).y + (⟨3, 4⟩ : Vec2q).y⟩ }) ∧
    (getShape (applyDragGroup dragWitnessStore
        (snapshotDraggingGroup dragWitnessStore 1) ⟨3, 4⟩) "c" =
      some ⟨"c", ⟨9, 9⟩, ⟨10, 10⟩, 80, 5, true, true, 2, ⟨255, 255, 255, 1⟩⟩) :=
  ⟨(drag_group_moves_same_z dragWitnessStore 1 ⟨3, 4⟩
      (by unfold uniqueIds dragWitnessStore; decide)
      (by intro e he; fin_cases he <;> rfl) "a"
      ⟨"a", ⟨1, 2⟩, ⟨10, 10⟩, 80, 5, true, true, 1, ⟨255, 255, 255, 1⟩⟩
      rfl).1 rfl rfl,
   (drag_group_moves_same_z dragWitnessStore 1 ⟨3, 4⟩
      (by unfold uniqueIds dragWitnessStore; decide)
      (by intro e he; fin_cases he <;> rfl) "c"
      ⟨"c", ⟨9, 9⟩, ⟨10, 10⟩, 80, 5, true, true, 2, ⟨255, 255, 255, 1⟩⟩
      rfl).2 (by decide)⟩

/-- C7: for a shape centred at the origin with half-extents
`hw, hh > 0` (i.e. `width = 2·hw`, `height = 2·hh`) and zero corner radius,
the SDF is exactly 0 at `(hw, 0)`, exactly 5 at `(hw + 5, 0)`, and exactly
`-min hw hh` at the origin — hence within any epsilon of the spec's values. -/
theorem roundedRectSDF_zero_radius_probes (hw hh n : ℝ)
    (hhw : 0 < hw) (hhh : 0 < hh) :
    roundedRectSDF hw 0 0 0 (2 * hw) (2 * hh) 0 n = 0 ∧
    roundedRectSDF (hw + 5) 0 0 0 (2 * hw) (2 * hh) 0 n = 5 ∧
    roundedRectSDF 0 0 0 0 (2 * hw) (2 * hh) 0 n = -min hw hh := by
  unfold roundedRectSDF
  refine ⟨?_, ?_, ?_⟩
  · rw [if_neg]
    · have h1 : |hw - 0| - 2 * hw * (1 / 2) = 0 := by
        rw [abs_of_pos (by linarith)]
        ring
      have h2 : |(0 : ℝ) - 0| - 2 * hh * (1 / 2) = -hh := by
        simp
        ring
      rw [h1, h2]
      have : max (0 : ℝ) (-hh) = 0 := max_eq_left (by linarith)
      rw [this]
      have : max (-hh) (0 : ℝ) = 0 := max_eq_right (by linarith)
      rw [this]
      simp [glslLength]
    · intro hc
      have h1 : |hw - 0| - 2 * hw * (1 / 2) = 0 := by
        rw [abs_of_pos (by linarith)]
        ring
      rw [h1] at hc
      exact absurd hc.1 (by norm_num)
  · rw [if_neg]
    · have h1 : |hw + 5 - 0| - 2 * hw * (1 / 2) = 5 := by
        rw [abs_of_pos (by linarith)]
        ring
      have h2 : |(0 : ℝ) - 0| - 2 * hh * (1 / 2) = -hh := by
        simp
        ring
      rw [h1, h2]
      have hm1 : max (5 : ℝ) (-hh) = 5 := max_eq_left (by linarith)
      have hm2 : max (5 : ℝ) 0 = 5 := max_eq_left (by norm_num)
      have hm3 : max (-hh) (0 : ℝ) = 0 := max_eq_right (by linarith)
      rw [hm1, hm2, hm3]
      have : glslLength 5 0 = 5 := by
        unfold glslLength
        rw [show (5 : ℝ) ^ 2 + 0 ^ 2 = 5 ^ 2 by ring]
        exact Real.sqrt_sq (by norm_num)
      rw [this]
      norm_num
    · intro hc
      have h2 : |(0 : ℝ) - 0| - 2 * hh * (1 / 2) = -hh := by
        simp
        ring
      rw [h2] at hc
      exact absurd hc.2 (by simp; linarith)
  · rw [if_neg]
    · have h1 : |(0 : ℝ) - 0| - 2 * hw * (1 / 2) = -hw := by
        simp
        ring
      have h2 : |(0 : ℝ) - 0| - 2 * hh * (1 / 2) = -hh := by
        simp
        ring
      rw [h1, h2]
      have hm1 : max (-hw) (0 : ℝ) = 0 := max_eq_right (by linarith)
      have hm2 : max (-hh) (0 : ℝ) = 0 := max_eq_right (by linarith)
      rw [hm1, hm2]
      have : glslLength 0 0 = 0 := by
        unfold glslLength
        simp
      rw [this]
      rw [max_neg_neg, min_eq_left (neg_nonpos.mpr (le_min hhw.le hhh.le))]
      ring
    · intro hc
      have h1 : |(0 : ℝ) - 0| - 2 * hw * (1 / 2) = -hw := by
        simp
        ring
      rw [h1] at hc
      exact absurd hc.1 (by simp; linarith)

/-- Witness for C7 at `hw = 10`, `hh = 7`. -/
theorem roundedRectSDF_zero_radius_probes_witness :
    roundedRectSDF 10 0 0 0 (2 * 10) (2 * 7) 0 3 = 0 ∧
    roundedRectSDF (10 + 5) 0 0 0 (2 * 10) (2 * 7) 0 3 = 5 ∧
    roundedRectSDF 0 0 0 0 (2 * 10) (2 * 7) 0 3 = -min 10 7 :=
  roundedRectSDF_zero_radius_probes 10 7 3 (by norm_num) (by norm_num)

lemma chunksOf_sum (C : ℕ) (l : List Shape) :
    ((chunksOf C l).map List.length).sum = l.length := by
  induction l using chunksOf.induct C with
  | case1 => simp [chunksOf]
  | case2 x h hC =>
    unfold chunksOf
    rw [if_neg h, if_pos hC]
    simp
  | case3 x h hC ih =>
    unfold chunksOf
    rw [if_neg h, if_neg hC]
    simp only [List.map_cons, List.sum_cons, ih, List.length_take,
      List.length_drop]
    have h1 : 0 < x.length := List.length_pos.mpr h
    rw [Nat.min_def]
    split <;> omega

lemma chunksOf_size_le (C : ℕ) (hC : 0 < C) (l : List Shape) :
    ∀ c ∈ chunksOf C l, c.length ≤ C := by
  induction l using chunksOf.induct C with
  | case1 => simp [chunksOf]
  | case2 x h h0 => exact absurd h0 (Nat.pos_iff_ne_zero.mp hC)
  | case3 x h h0 ih =>
    unfold chunksOf
    rw [if_neg h, if_neg h0]
    intro c hc
    rcases List.mem_cons.mp hc with rfl | hm
    · rw [List.length_take]
      exact min_le_left _ _
    · exact ih c hm

lemma filter_length_split (p : Shape → Prop) [DecidablePred p]
    (l : List Shape) :
    (l.filter (fun y => p y)).length + (l.filter (fun y => ¬ p y)).length =
      l.length := by
  induction l with
  | nil => rfl
  | cons x xs ih =>
    by_cases hx : p x
    · rw [List.filter_cons_of_pos (by simpa using hx),
        List.filter_cons_of_neg (by simpa using hx)]
      simp only [List.length_cons]
      omega
    · rw [List.filter_cons_of_neg (by simpa using hx),
        List.filter_cons_of_pos (by simpa using hx)]
      simp only [List.length_cons]
      omega

lemma groupByKey_sum (l : List Shape) :
    ((groupByKey l).map (fun g => g.2.length)).sum = l.length := by
  induction l using groupByKey.induct with
  | case1 => simp [groupByKey]
  | case2 x xs ih =>
    unfold groupByKey
    simp only [List.map_cons, List.sum_cons, List.length_cons, ih]
    have hsplit := filter_length_split (fun y => batchKey y = batchKey x) xs
    omega

lemma batch_piece_sum (C : ℕ) (z : ℤ) (t : RGBA) (l : List Shape) :
    (((chunksOf C l).map (fun c => Batch.mk c z t)).map
      (fun b => b.shapes.length)).sum = l.length := by
  rw [List.map_map]
  rw [show ((fun b => b.shapes.length) ∘ (fun c => Batch.mk c z t)) =
    List.length from rfl]
  exact chunksOf_sum C l

/-- C1: for any shape population and any cap `C > 0`, the batch list
returned by the (spec-modelled) `getBatchedShapeData` has batch sizes
summing to the number of visible shapes, every batch of size at most `C`,
and is sorted non-decreasing by `zIndex`. -/
theorem batching_sum_cap_sorted (shapes : List Shape) (C : ℕ) (hC : 0 < C) :
    (((getBatchedShapeData shapes C).map (fun b => b.shapes.length)).sum =
      (shapes.filter (fun s => s.visible)).length) ∧
    (∀ b ∈ getBatchedShapeData shapes C, b.shapes.length ≤ C) ∧
    List.Sorted batchLE (getBatchedShapeData shapes C) := by
  unfold getBatchedShapeData
  refine ⟨?_, ?_, List.sorted_insertionSort batchLE _⟩
  · rw [((List.perm_insertionSort batchLE _).map
      (fun b => b.shapes.length)).sum_eq]
    rw [List.map_flatten, List.sum_flatten, List.map_map, List.map_map]
    rw [List.map_congr_left
      (fun g _ => batch_piece_sum C g.1.1 g.1.2 g.2)]
    exact groupByKey_sum _
  · intro b hb
    have hb2 := (List.perm_insertionSort batchLE _).mem_iff.mp hb
    rcases List.mem_flatten.mp hb2 with ⟨sub, hsub, hbsub⟩
    rcases List.mem_map.mp hsub with ⟨g, _, rfl⟩
    rcases List.mem_map.mp hbsub with ⟨c, hc, rfl⟩
    exact chunksOf_size_le C hC g.2 c hc

/-- Witness for C1: four shapes across two keys with cap 2 — the group of
three at zIndex 0 splits into two batches. -/
theorem batching_sum_cap_sorted_witness :
    (((getBatchedShapeData
        [⟨"a", ⟨0, 0⟩, ⟨1, 1⟩, 80, 5, true, true, 0, ⟨255, 0, 0, 1⟩⟩,
         ⟨"b", ⟨1, 0⟩, ⟨1, 1⟩, 80, 5, true, true, 0, ⟨255, 0, 0, 1⟩⟩,
         ⟨"c", ⟨2, 0⟩, ⟨1, 1⟩, 80, 5, true, true, 0, ⟨255, 0, 0, 1⟩⟩,
         ⟨"d", ⟨3, 0⟩, ⟨1, 1⟩, 80, 5, true, true, 1, ⟨0, 255, 0, 1⟩⟩] 2).map
          (fun b => b.shapes.length)).sum =
      (([⟨"a", ⟨0, 0⟩, ⟨1, 1⟩, 80, 5, true, true, 0, ⟨255, 0, 0, 1⟩⟩,
         ⟨"b", ⟨1, 0⟩, ⟨1, 1⟩, 80, 5, true, true, 0, ⟨255, 0, 0, 1⟩⟩,
         ⟨"c", ⟨2, 0⟩, ⟨1, 1⟩, 80, 5, true, true, 0, ⟨255, 0, 0, 1⟩⟩,
         ⟨"d", ⟨3, 0⟩, ⟨1, 1⟩, 80, 5, true, true, 1, ⟨0, 255, 0, 1⟩⟩] :
          List Shape).filter (fun s => s.visible)).length) ∧
    (∀ b ∈ getBatchedShapeData
        [⟨"a", ⟨0, 0⟩, ⟨1, 1⟩, 80, 5, true, true, 0, ⟨255, 0, 0, 1⟩⟩,
         ⟨"b", ⟨1, 0⟩, ⟨1, 1⟩, 80, 5, true, true, 0, ⟨255, 0, 0, 1⟩⟩,
         ⟨"c", ⟨2, 0⟩, ⟨1, 1⟩, 80, 5, true, true, 0, ⟨255, 0, 0, 1⟩⟩,
         ⟨"d", ⟨3, 0⟩, ⟨1, 1⟩, 80, 5, true, true, 1, ⟨0, 255, 0, 1⟩⟩] 2,
      b.shapes.length ≤ 2) ∧
    List.Sorted batchLE (getBatchedShapeData
        [⟨"a", ⟨0, 0⟩, ⟨1, 1⟩, 80, 5, true, true, 0, ⟨255, 0, 0, 1⟩⟩,
         ⟨"b", ⟨1, 0⟩, ⟨1, 1⟩, 80, 5, true, true, 0, ⟨255, 0, 0, 1⟩⟩,
         ⟨"c", ⟨2, 0⟩, ⟨1, 1⟩, 80, 5, true, true, 0, ⟨255, 0, 0, 1⟩⟩,
         ⟨"d", ⟨3, 0⟩, ⟨1, 1⟩, 80, 5, true, true, 1, ⟨0, 255, 0, 1⟩⟩] 2) :=
  batching_sum_cap_sorted
    [⟨"a", ⟨0, 0⟩, ⟨1, 1⟩, 80, 5, true, true, 0, ⟨255, 0, 0, 1⟩⟩,
     ⟨"b", ⟨1, 0⟩, ⟨1, 1⟩, 80, 5, true, true, 0, ⟨255, 0, 0, 1⟩⟩,
     ⟨"c", ⟨2, 0⟩, ⟨1, 1⟩, 80, 5, true, true, 0, ⟨255, 0, 0, 1⟩⟩,
     ⟨"d", ⟨3, 0⟩, ⟨1, 1⟩, 80, 5, true, true, 1, ⟨0, 255, 0, 1⟩⟩] 2
    (by norm_num)
